import Mathlib

/-!
Verification development for the specification-based test generator
(`spec_test_generator.py`): parameter-model normalization, the safe
arithmetic-expression evaluator used as an oracle, equivalence/boundary
case generation, and JUnit-source rendering.

Modelling conventions for the shallow embedding:
  * Python ints are `Int`; Python floats are exact rationals represented by
    the normalized-fraction type `PyF` below (kept kernel-computable so that
    concrete runs evaluate inside proofs). The two `math.nextafter` boundary
    values for float domains are kept symbolic (`Val.vnext`) since an
    exact-rational model has no adjacent representable value.
  * Python dicts are key-unique association lists in insertion order.
  * Fallible Python code (statements that can raise) returns `Option`;
    an uncaught exception is `none`.
  * Oracle expressions enter the embedding already parsed to their Python
    `ast` tree (`PyExpr`); `ast.parse` itself is host-library code.
-/

set_option maxHeartbeats 1000000
set_option maxRecDepth 4096

/-- Exact rational number in lowest terms with positive denominator, used to
model Python floats on the exactly-representable values the generator
manipulates. -/
structure PyF where
  num : Int
  den : Nat
deriving DecidableEq, Repr

/-- Build a normalized fraction from numerator and denominator (denominator
expected non-zero; callers guard division by zero). The sign moves to the
numerator and the pair is divided by its gcd. -/
def PyF.mk' (n d : Int) : PyF :=
  let s : Int := if d < 0 then -n else n
  let ad : Nat := d.natAbs
  let g : Nat := Nat.gcd s.natAbs ad
  if g = 0 then ⟨0, 1⟩ else ⟨Int.tdiv s (g : Int), ad / g⟩

/-- Embedding of an integer as a float value. -/
def PyF.ofInt (n : Int) : PyF := ⟨n, 1⟩

def PyF.add (a b : PyF) : PyF :=
  PyF.mk' (a.num * (b.den : Int) + b.num * (a.den : Int)) ((a.den : Int) * (b.den : Int))

def PyF.sub (a b : PyF) : PyF :=
  PyF.mk' (a.num * (b.den : Int) - b.num * (a.den : Int)) ((a.den : Int) * (b.den : Int))

def PyF.mul (a b : PyF) : PyF := PyF.mk' (a.num * b.num) ((a.den : Int) * (b.den : Int))

/-- Exact division; callers guard a zero divisor. -/
def PyF.div (a b : PyF) : PyF := PyF.mk' (a.num * (b.den : Int)) ((a.den : Int) * b.num)

def PyF.neg (a : PyF) : PyF := ⟨-a.num, a.den⟩

def PyF.fabs (a : PyF) : PyF := ⟨(a.num.natAbs : Int), a.den⟩

/-- Python `math.floor` on the fraction. -/
def PyF.floor (a : PyF) : Int := Int.fdiv a.num (a.den : Int)

/-- Truncation toward zero, Python `int(float)`. -/
def PyF.trunc (a : PyF) : Int := Int.tdiv a.num (a.den : Int)

/-- Strict order by cross multiplication (denominators are positive). -/
def PyF.blt (a b : PyF) : Bool := a.num * (b.den : Int) < b.num * (a.den : Int)

def PyF.isZero (a : PyF) : Bool := a.num = 0

def PyF.powNat (a : PyF) : Nat → PyF
  | 0 => ⟨1, 1⟩
  | n + 1 => PyF.mul a (PyF.powNat a n)

/-- Integer-exponent power; a negative exponent inverts (callers guard a
zero base there). -/
def PyF.zpow (a : PyF) (e : Int) : PyF :=
  if 0 ≤ e then PyF.powNat a e.toNat
  else
    let p := PyF.powNat a (-e).toNat
    PyF.mk' (p.den : Int) p.num

example : PyF.add ⟨1, 2⟩ ⟨1, 2⟩ = ⟨1, 1⟩ := by decide
example : PyF.div (PyF.add ⟨0, 1⟩ ⟨10, 1⟩) ⟨2, 1⟩ = ⟨5, 1⟩ := by decide
example : PyF.floor ⟨-5, 2⟩ = -3 := by decide
example : PyF.trunc ⟨-5, 2⟩ = -2 := by decide

/-- Runtime values flowing through the generator: Python ints, floats
(modelled as exact fractions), booleans, `None`, and the symbolic results of
`math.nextafter(x, ±inf)`. -/
inductive Val where
  | vint (n : Int)
  | vrat (q : PyF)
  | vbool (b : Bool)
  | vnone
  | vnext (up : Bool) (q : PyF)
deriving DecidableEq, Repr

/-- Python `int(v)`: ints pass through, floats truncate toward zero, bools
coerce to 0/1; `None` (and the symbolic floats, whose exact value is not
representable) raise, i.e. yield `none`. -/
def pyInt : Val → Option Int
  | .vint n => some n
  | .vrat q => some q.trunc
  | .vbool b => some (if b then 1 else 0)
  | _ => none

/-- Python `float(v)` on the values the generator passes around. -/
def pyFloat : Val → Option PyF
  | .vint n => some (PyF.ofInt n)
  | .vrat q => some q
  | .vbool b => some (PyF.ofInt (if b then 1 else 0))
  | _ => none

/-- Python `isinstance(v, float)`. -/
def isFloat : Val → Bool
  | .vrat _ => true
  | .vnext _ _ => true
  | _ => false

/-- Numeric view used by the evaluator's arithmetic: ints and bools are
integers, floats are fractions; `None` and the symbolic floats are opaque. -/
def asNum : Val → Option (Int ⊕ PyF)
  | .vint n => some (.inl n)
  | .vbool b => some (.inl (if b then 1 else 0))
  | .vrat q => some (.inr q)
  | _ => none

/-- A value Python arithmetic accepts as a number. -/
def isNum (v : Val) : Bool := (asNum v).isSome

/-- Domain descriptor: the optional `min` / `max` / `values` keys of the
`domain` dict of a parameter. -/
structure Domain where
  dmin : Option Val
  dmax : Option Val
  dvalues : Option (List Val)
deriving DecidableEq, Repr

/-- Equivalence-class record, mirroring the `{name, values|range}` dicts
(each key optional, `range` a literal list the source unpacks into two). -/
structure EC where
  name : Option String
  values : Option (List Val)
  range : Option (List Val)
deriving DecidableEq, Repr

/-- Source dataclass `ParamSpec`. -/
structure ParamSpec where
  name : String
  type : String
  domain : Option Domain
  equivalence_classes : Option (List EC)
  boundaries : Option (List Val)
deriving DecidableEq, Repr

/-- Source `_midpoint`: `int(min_v + (max_v - min_v) // 2)`; all call sites
pass ints, so the guarding `try/except` never fires. Python `//` floors. -/
def _midpoint (min_v max_v : Int) : Int := min_v + Int.fdiv (max_v - min_v) 2

/-- Integer-like type names of the source. -/
def intLike (t : String) : Bool := t = "int" || t = "long" || t = "short" || t = "byte"

/-- Floating-like type names of the source. -/
def floatLike (t : String) : Bool := t = "float" || t = "double"

/-- Python `p.domain and "min" in p.domain and "max" in p.domain`. -/
def domHasMinMax (d : Option Domain) : Bool :=
  match d with
  | some dd => dd.dmin.isSome && dd.dmax.isSome
  | none => false

/-- Python `p.domain and "values" in p.domain`. -/
def domHasValues (d : Option Domain) : Bool :=
  match d with
  | some dd => dd.dvalues.isSome
  | none => false

/-- Python float average `(a + b) / 2.0`. -/
def favg (a b : PyF) : PyF := PyF.div (PyF.add a b) (PyF.ofInt 2)

/-- Source `_derive_default_equivalence_classes`. -/
def _derive_default_equivalence_classes (p : ParamSpec) : Option (List EC) :=
  if intLike p.type && domHasMinMax p.domain then do
    let d ← p.domain
    let min_v ← pyInt (← d.dmin)
    let max_v ← pyInt (← d.dmax)
    let e1 : List EC :=
      if min_v < 0 then [⟨some "negative", none, some [.vint min_v, .vint (-1)]⟩] else []
    let e2 : List EC :=
      if min_v ≤ 0 ∧ 0 ≤ max_v then [⟨some "zero", some [.vint 0], none⟩] else []
    let e3 : List EC :=
      if 0 < max_v then [⟨some "positive", none, some [.vint 1, .vint max_v]⟩] else []
    return e1 ++ e2 ++ e3
  else if floatLike p.type && domHasMinMax p.domain then do
    let d ← p.domain
    let min_v ← pyFloat (← d.dmin)
    let max_v ← pyFloat (← d.dmax)
    return [⟨some "low", none, some [.vrat min_v, .vrat (favg min_v max_v)]⟩,
            ⟨some "high", none, some [.vrat (favg min_v max_v), .vrat max_v]⟩]
  else if domHasValues p.domain then
    let vals := ((p.domain.bind Domain.dvalues).getD []).take 3
    some (vals.enum.map (fun iv => ⟨some ("value_" ++ toString iv.1), some [iv.2], none⟩))
  else
    some [⟨some "nominal", some [if intLike p.type then Val.vint 0 else Val.vnone], none⟩]

/-- Source `_derive_default_boundaries`. The integer branch deduplicates
`[min, min+1, max-1, max]` clipped to the domain, then appends any of
`-1, 0, 1` inside the domain and not yet present; the float branch keeps the
five values (no dedup), with `math.nextafter` kept symbolic. -/
def _derive_default_boundaries (p : ParamSpec) : Option (List Val) :=
  if intLike p.type && domHasMinMax p.domain then do
    let d ← p.domain
    let min_v ← pyInt (← d.dmin)
    let max_v ← pyInt (← d.dmax)
    let step1 := [min_v, min_v + 1, max_v - 1, max_v].foldl
      (fun b c => if min_v ≤ c ∧ c ≤ max_v ∧ ¬ b.contains c then b ++ [c] else b) []
    let step2 := [(-1 : Int), 0, 1].foldl
      (fun b z => if min_v ≤ z ∧ z ≤ max_v ∧ ¬ b.contains z then b ++ [z] else b) step1
    return step2.map Val.vint
  else if floatLike p.type && domHasMinMax p.domain then do
    let d ← p.domain
    let min_v ← pyFloat (← d.dmin)
    let max_v ← pyFloat (← d.dmax)
    return [.vrat min_v, .vnext true min_v, .vnext false max_v, .vrat max_v,
            .vrat (favg min_v max_v)]
  else
    some []

/-- Python tuple unpacking `lo, hi = ec["range"]`: exactly two elements or a
`ValueError`. -/
def unpack2 : List Val → Option (Val × Val)
  | [lo, hi] => some (lo, hi)
  | _ => none

/-- Type-appropriate zero-like default of `_nominal_value`'s last line. -/
def nominalDefault (t : String) : Val :=
  if intLike t then .vint 0 else if floatLike t then .vrat (PyF.ofInt 0) else .vnone

/-- Domain-based part of `_nominal_value` (its `if p.domain:` block plus the
final defaults line). -/
def nominalFromDomain (p : ParamSpec) : Option Val :=
  match p.domain with
  | some d =>
    match d.dvalues with
    | some (v :: _) => some v
    | _ =>
      match d.dmin, d.dmax with
      | some lo, some hi =>
        if intLike p.type then do
          let ilo ← pyInt lo
          let ihi ← pyInt hi
          return .vint (_midpoint ilo ihi)
        else if floatLike p.type then do
          let flo ← pyFloat lo
          let fhi ← pyFloat hi
          return .vrat (favg flo fhi)
        else some (nominalDefault p.type)
      | _, _ => some (nominalDefault p.type)
  | none => some (nominalDefault p.type)

/-- Source `_nominal_value`: representative of the first equivalence class
when one is present (first element of a value set, else range midpoint —
float average when either bound is a float, else integer `_midpoint`), else
domain value/midpoint, else a type-appropriate zero. -/
def _nominal_value (p : ParamSpec) : Option Val :=
  match p.equivalence_classes with
  | some (ec :: _) =>
    match ec.values with
    | some (v :: _) => some v
    | _ =>
      match ec.range with
      | some r => do
        let lohi ← unpack2 r
        if isFloat lohi.1 || isFloat lohi.2 then do
          let flo ← pyFloat lohi.1
          let fhi ← pyFloat lohi.2
          return Val.vrat (favg flo fhi)
        else do
          let ilo ← pyInt lohi.1
          let ihi ← pyInt lohi.2
          return Val.vint (_midpoint ilo ihi)
      | none => nominalFromDomain p
  | _ => nominalFromDomain p

/-- Source `_representative_from_ec`: first listed value, else range midpoint
(branching on the declared parameter type here, unlike `_nominal_value`),
else the parameter's nominal value. -/
def _representative_from_ec (ec : EC) (p : ParamSpec) : Option Val :=
  match ec.values with
  | some (v :: _) => some v
  | _ =>
    match ec.range with
    | some r => do
      let lohi ← unpack2 r
      if intLike p.type then do
        let ilo ← pyInt lohi.1
        let ihi ← pyInt lohi.2
        return Val.vint (_midpoint ilo ihi)
      else do
        let flo ← pyFloat lohi.1
        let fhi ← pyFloat lohi.2
        return Val.vrat (favg flo fhi)
    | none => _nominal_value p

example : _midpoint (-5) (-1) = -3 := by decide
example : _derive_default_equivalence_classes ⟨"n", "int", some ⟨some (.vint 0), some (.vint 10), none⟩, none, none⟩ =
    some [⟨some "zero", some [.vint 0], none⟩, ⟨some "positive", none, some [.vint 1, .vint 10]⟩] := by decide
example : _derive_default_boundaries ⟨"n", "int", some ⟨some (.vint 0), some (.vint 10), none⟩, none, none⟩ =
    some [.vint 0, .vint 1, .vint 9, .vint 10] := by decide

/-- Kinds of Python binary operators as they appear on `ast.BinOp` nodes; the
catch-all covers operators `_apply_op` rejects (BitOr, LShift, MatMult, ...).
-/
inductive BinK where
  | add | sub | mult | div | floordiv | mod | pow | otherB (s : String)
deriving DecidableEq, Repr

/-- Kinds of Python unary operators on `ast.UnaryOp` nodes. -/
inductive UnK where
  | usub | uadd | otherU (s : String)
deriving DecidableEq, Repr

/-- Python `ast` expression trees as seen by `SafeExprEvaluator`. Constructors
mirror the node kinds the allow-list knows; `other` stands for every
remaining node kind (attribute access, comparison, string constants,
lambdas, ...), which the `visit` override rejects wholesale. -/
inductive PyExpr where
  | num (v : Val)
  | name (id : String)
  | binop (op : BinK) (l r : PyExpr)
  | unaryop (op : UnK) (e : PyExpr)
  | call (f : PyExpr) (args : List PyExpr)
  | other (kind : String) (children : List PyExpr)

/-- Integer-operand semantics of `SafeExprEvaluator._apply_op`: true division
promotes to float, `//` and `%` floor (Python semantics), `**` with a
negative exponent promotes to float and raises on base 0. -/
def intOp (op : BinK) (i j : Int) : Option Val :=
  match op with
  | .add => some (.vint (i + j))
  | .sub => some (.vint (i - j))
  | .mult => some (.vint (i * j))
  | .div => if j = 0 then none else some (.vrat (PyF.mk' i j))
  | .floordiv => if j = 0 then none else some (.vint (Int.fdiv i j))
  | .mod => if j = 0 then none else some (.vint (Int.fmod i j))
  | .pow =>
    if 0 ≤ j then some (.vint (i ^ j.toNat))
    else if i = 0 then none else some (.vrat (PyF.zpow (PyF.ofInt i) j))
  | _ => none

/-- Float-operand semantics of `_apply_op` on exact fractions. A fractional
exponent would produce an irrational float, which the exact model cannot
represent; it is conservatively mapped to failure (no oracle expression in
the repository uses `**`). -/
def ratOp (op : BinK) (a b : PyF) : Option Val :=
  match op with
  | .add => some (.vrat (PyF.add a b))
  | .sub => some (.vrat (PyF.sub a b))
  | .mult => some (.vrat (PyF.mul a b))
  | .div => if b.isZero then none else some (.vrat (PyF.div a b))
  | .floordiv => if b.isZero then none else some (.vrat (PyF.ofInt ((PyF.div a b).floor)))
  | .mod =>
    if b.isZero then none
    else some (.vrat (PyF.sub a (PyF.mul b (PyF.ofInt ((PyF.div a b).floor)))))
  | .pow =>
    if b.den = 1 then
      if a.isZero ∧ b.num < 0 then none else some (.vrat (PyF.zpow a b.num))
    else none
  | _ => none

/-- `_apply_op` with Python's numeric promotion: int op int stays integral
(except `/`), anything involving a float is float arithmetic. -/
def pyBin (op : BinK) (x y : Val) : Option Val := do
  let a ← asNum x
  let b ← asNum y
  match a, b with
  | .inl i, .inl j => intOp op i j
  | .inl i, .inr q => ratOp op (PyF.ofInt i) q
  | .inr q, .inl j => ratOp op q (PyF.ofInt j)
  | .inr q, .inr r => ratOp op q r

/-- `visit_UnaryOp`: only `USub`/`UAdd` are accepted, and Python negation of
a non-number raises (both paths end in the oracle's except-clause). -/
def pyUn (op : UnK) (x : Val) : Option Val := do
  let a ← asNum x
  match op, a with
  | .usub, .inl i => some (.vint (-i))
  | .usub, .inr q => some (.vrat q.neg)
  | .uadd, .inl i => some (.vint i)
  | .uadd, .inr q => some (.vrat q)
  | .otherU _, _ => none

/-- Coercion to a fraction used only for ordering comparisons in min/max. -/
def toRatD (v : Val) : PyF :=
  match asNum v with
  | some (.inl i) => PyF.ofInt i
  | some (.inr q) => q
  | none => PyF.ofInt 0

/-- CPython `min`/`max` loop: strict comparison, so the first of equal
elements wins; the result is one of the original values, uncoerced. -/
def pickFold (isMin : Bool) (init : Val) (l : List Val) : Val :=
  l.foldl (fun acc v =>
    if isMin then (if (toRatD v).blt (toRatD acc) then v else acc)
    else (if (toRatD acc).blt (toRatD v) then v else acc)) init

/-- Python `min(...)`/`max(...)` over positional arguments: fewer than two
arguments raises (a single number is not iterable), as does any non-numeric
argument (unordered with numbers). -/
def pyMinMax (isMin : Bool) (vs : List Val) : Option Val :=
  match vs with
  | a :: b :: rest =>
    if (a :: b :: rest).all isNum then some (pickFold isMin a (b :: rest)) else none
  | _ => none

/-- Python `round` on a fraction: banker's rounding (ties to even). -/
def pyRound (q : PyF) : Int :=
  let f := q.floor
  let frac := PyF.sub q (PyF.ofInt f)
  if frac.blt ⟨1, 2⟩ then f
  else if (⟨1, 2⟩ : PyF).blt frac then f + 1
  else if f % 2 = 0 then f else f + 1

/-- Allow-listed builtins of `SafeExprEvaluator.allowed_funcs`, applied to
already-evaluated arguments; wrong arity or non-numeric arguments raise
(hence `none`). The two-argument form of `round` is not modelled (no call
site uses it). -/
def applyFunc (f : String) (vs : List Val) : Option Val :=
  if f = "abs" then
    match vs with
    | [v] =>
      match asNum v with
      | some (.inl i) => some (.vint (i.natAbs : Int))
      | some (.inr q) => some (.vrat q.fabs)
      | none => none
    | _ => none
  else if f = "min" then pyMinMax true vs
  else if f = "max" then pyMinMax false vs
  else if f = "round" then
    match vs with
    | [v] =>
      match asNum v with
      | some (.inl i) => some (.vint i)
      | some (.inr q) => some (.vint (pyRound q))
      | none => none
    | _ => none
  else none

/-- Python dict read `d.get(k)` on an insertion-ordered association list. -/
def dictGet : List (String × Val) → String → Option Val
  | [], _ => none
  | kv :: rest, k => if kv.1 = k then some kv.2 else dictGet rest k

/-- Python dict assignment `d[k] = v`: updates the (unique) existing entry in
place, else appends. All dicts in the generator are built by this function
starting from `{}`, so keys stay unique. -/
def dictSet : List (String × Val) → String → Val → List (String × Val)
  | [], k, v => [(k, v)]
  | kv :: rest, k, v => if kv.1 = k then (k, v) :: rest else kv :: dictSet rest k v

mutual

/-- `SafeExprEvaluator.visit` on an expression body: the `isinstance`
allow-list gate plus the per-node visitors. Numeric literals evaluate to
their value (the `ast.Num`/`ast.Constant` compatibility shim dispatches
numeric constants to `visit_Num`; non-numeric constants fail the gate and
are `other` nodes here); names must be bound in the environment; a call is
accepted only when its function position is a bare allow-listed name. -/
def evalExpr (env : List (String × Val)) : PyExpr → Option Val
  | .num v => if isNum v then some v else none
  | .name id => dictGet env id
  | .binop op l r => do
    let a ← evalExpr env l
    let b ← evalExpr env r
    pyBin op a b
  | .unaryop op e => do
    let a ← evalExpr env e
    pyUn op a
  | .call f args =>
    match f with
    | .name fid =>
      if fid = "abs" || fid = "min" || fid = "max" || fid = "round" then do
        let vs ← evalArgs env args
        applyFunc fid vs
      else none
    | _ => none
  | .other _ _ => none

/-- Evaluation of a call's argument list, left to right, failing on the
first failing argument. -/
def evalArgs (env : List (String × Val)) : List PyExpr → Option (List Val)
  | [] => some []
  | a :: rest => do
    let v ← evalExpr env a
    let vs ← evalArgs env rest
    return v :: vs

end

/-- Source `_eval_oracle`: parse the oracle string and run the safe visitor,
with every exception caught and turned into `None`. The parse step is host
`ast.parse`; expressions enter the embedding pre-parsed. -/
def _eval_oracle (e : PyExpr) (inputs : List (String × Val)) : Option Val :=
  evalExpr inputs e

example : _eval_oracle (.binop .add (.num (.vint 1)) (.num (.vint 2))) [] = some (.vint 3) := by decide
example : _eval_oracle (.binop .div (.name "a") (.name "b")) [("a", .vint 1), ("b", .vint 0)] = none := by decide
example : _eval_oracle (.call (.name "__import__") [.other "Constant_str" []]) [] = none := by decide
example : _eval_oracle (.call (.name "min") [.num (.vint 4), .num (.vint 7)]) [] = some (.vint 4) := by decide
example : _eval_oracle (.binop .mod (.num (.vint (-7))) (.num (.vint 3))) [] = some (.vint 2) := by decide
example : _eval_oracle (.binop .div (.num (.vint 1)) (.num (.vint 2))) [] = some (.vrat ⟨1, 2⟩) := by decide

/-- Python truthiness of an optional string (absent and empty are falsy). -/
def truthyS (s : Option String) : Bool :=
  match s with
  | some str => str ≠ ""
  | none => false

/-- Python `"-".join`-style single-character replacement
`s.replace("-", "_")` (the only replacement the source performs), written
character-wise to stay kernel-computable. -/
def dashToUnderscore (s : String) : String :=
  ⟨s.data.map (fun ch => if ch = '-' then '_' else ch)⟩

/-- Python `s.startswith(pre)`, written over the character lists to stay
kernel-computable. -/
def strStartsWith (s pre : String) : Bool := pre.data.isPrefixOf s.data

/-- Python `s.split(".")[-1]`: the suffix after the last dot (the whole
string when no dot occurs, empty for a trailing dot). -/
def splitLastDot (s : String) : String :=
  ⟨(s.data.reverse.takeWhile (fun c => c ≠ '.')).reverse⟩

/-- ASCII whitespace recognized by the modelled `str.strip()`. -/
def isSpaceChar (c : Char) : Bool := c = ' ' || c = '\t' || c = '\n' || c = '\r'

/-- Python `str.strip()` on the ASCII whitespace the generator can meet. -/
def pyStrip (s : String) : String :=
  ⟨((s.data.dropWhile isSpaceChar).reverse.dropWhile isSpaceChar).reverse⟩

/-- Failure-propagating list map: the shape of Python list comprehensions and
loops whose body may raise (the whole run fails on the first exception). -/
def mapO {α β : Type} (f : α → Option β) : List α → Option (List β)
  | [] => some []
  | a :: l => do
    let b ← f a
    let l' ← mapO f l
    return b :: l'

/-- Raw parameter descriptor as read from the input specification dict:
`p["name"]` raises when absent, `p.get("type", "int")` defaults. -/
structure RawParam where
  name : Option String
  type : Option String
  domain : Option Domain
  equivalence_classes : Option (List EC)
  boundaries : Option (List Val)

/-- Raw specification document. `output_oracle` models
`spec["output"]["oracle"]` (present only when `output` is a dict holding the
key), pre-parsed to its `ast` tree; `junitVersion` models the field after
Python's `str(...)` coercion. -/
structure Spec where
  params : List RawParam
  classUnderTest : Option String
  method : Option String
  testPackage : Option String
  package : Option String
  testClassName : Option String
  outputDir : Option String
  junitVersion : Option String
  output_oracle : Option PyExpr

/-- Per-parameter body of `normalize_spec`'s loop: build the `ParamSpec` and
fill missing equivalence classes and boundaries with the derived defaults. -/
def normParam (p : RawParam) : Option ParamSpec := do
  let nm ← p.name
  let ps : ParamSpec := ⟨nm, p.type.getD "int", p.domain, p.equivalence_classes, p.boundaries⟩
  let ecs ← match ps.equivalence_classes with
    | none => _derive_default_equivalence_classes ps
    | some e => some e
  let bs ← match ps.boundaries with
    | none => _derive_default_boundaries ps
    | some b => some b
  return { ps with equivalence_classes := some ecs, boundaries := some bs }

/-- Result of `normalize_spec`: the spec dict enriched with `_params_obj`. -/
structure NormSpec where
  spec : Spec
  params_obj : List ParamSpec

/-- Source `normalize_spec`. -/
def normalize_spec (s : Spec) : Option NormSpec := do
  let ps ← mapO normParam s.params
  return ⟨s, ps⟩

/-- Generated test case dict: tagged by `type` with the optional `param` /
`class` / `boundary` / `label` keys (the `class` key is `cls` here, `class`
being reserved) and the full input vector. -/
structure Case where
  type : String
  param : Option String
  cls : Option String
  boundary : Option Val
  label : Option String
  inputs : List (String × Val)
deriving DecidableEq, Repr

/-- Nominal baseline vector `{p.name: _nominal_value(p) for p in params}`:
values are computed left to right (failures propagate) and inserted in
order, later duplicates overwriting in place. -/
def buildNominal (params : List ParamSpec) : Option (List (String × Val)) := do
  let kvs ← mapO (fun p => (_nominal_value p).map (fun v => (p.name, v))) params
  return kvs.foldl (fun d kv => dictSet d kv.1 kv.2) []

/-- Equivalence cases of a single parameter, one per class in declared
order: the nominal vector with this parameter replaced by the class
representative. -/
def eqCasesFor (nominal : List (String × Val)) (p : ParamSpec) : Option (List Case) :=
  mapO (fun ec => (_representative_from_ec ec p).map (fun rep =>
      ⟨"equivalence", some p.name, some (ec.name.getD "anon"), none, none,
       dictSet nominal p.name rep⟩))
    (p.equivalence_classes.getD [])

/-- Plain boundary cases of a single parameter, one per boundary value. -/
def bndCasesFor (nominal : List (String × Val)) (p : ParamSpec) : List Case :=
  (p.boundaries.getD []).map (fun b =>
    ⟨"boundary", some p.name, none, some b, none, dictSet nominal p.name b⟩)

/-- A parameter qualifies for the combo cases when its boundary list is
non-empty and its domain carries both `min` and `max` (source lines
250-259). -/
def comboQual (p : ParamSpec) : Bool :=
  !(p.boundaries.getD []).isEmpty && domHasMinMax p.domain

/-- The `all_min` / `all_max` dict entry a parameter contributes: its raw
domain bound (not coerced). -/
def comboEntry (useMin : Bool) (p : ParamSpec) : Option (String × Val) :=
  if comboQual p then
    match p.domain with
    | some dd => (if useMin then dd.dmin else dd.dmax).map (fun v => (p.name, v))
    | none => none
  else none

/-- One iteration of the `all_min`/`all_max` accumulation loop. -/
def comboStep (useMin : Bool) (d : List (String × Val)) (p : ParamSpec) : List (String × Val) :=
  match comboEntry useMin p with
  | some kv => dictSet d kv.1 kv.2
  | none => d

/-- The `all_min` (resp. `all_max`) dict: the source loop adds an entry per
qualifying parameter and separately latches the `have_all_min_max` flag;
building the dict with a filtered fold is the same computation. -/
def comboDict (useMin : Bool) (params : List ParamSpec) : List (String × Val) :=
  params.foldl (comboStep useMin) []

/-- The optional pair of boundary-combo cases: emitted exactly when every
parameter qualifies and both dicts are non-empty. -/
def comboCases (params : List ParamSpec) : List Case :=
  let all_min := comboDict true params
  let all_max := comboDict false params
  if params.all comboQual && !all_min.isEmpty && !all_max.isEmpty then
    [⟨"boundary-combo", none, none, none, some "all-min", all_min⟩,
     ⟨"boundary-combo", none, none, none, some "all-max", all_max⟩]
  else []

/-- Result dict of `generate_cases`: counts, cases, nominal vector, and the
input spec with `_params_obj` stripped again. -/
structure GenResult where
  total : Nat
  equivalence : Nat
  boundaryCount : Nat
  cases : List Case
  nominal : List (String × Val)
  spec : Spec

/-- Source `generate_cases`: nominal vector, then all equivalence cases
grouped by parameter then class, then all plain boundary cases grouped by
parameter then boundary, then the optional combo pair; counts are taken over
the finished list (`boundary` counts everything whose type starts with
"boundary", combos included). -/
def generate_cases (s : Spec) : Option GenResult := do
  let ns ← normalize_spec s
  let params := ns.params_obj
  let nominal ← buildNominal params
  let eqBlocks ← mapO (eqCasesFor nominal) params
  let cases := eqBlocks.flatten ++ (params.map (bndCasesFor nominal)).flatten ++ comboCases params
  return ⟨cases.length,
    (cases.filter (fun c => c.type == "equivalence")).length,
    (cases.filter (fun c => strStartsWith c.type "boundary")).length,
    cases, nominal, s⟩

/-- Raw one-parameter float spec of the testable-properties section: domain
`[0.0, 10.0]`, nothing else given. -/
def floatRawParam010 : RawParam :=
  ⟨some "x", some "float", some ⟨some (.vrat ⟨0, 1⟩), some (.vrat ⟨10, 1⟩), none⟩, none, none⟩

/-- Specification holding only `floatRawParam010`. -/
def c2spec : Spec := ⟨[floatRawParam010], none, none, none, none, none, none, none, none⟩

/-- The same float parameter as a bare `ParamSpec` before normalization. -/
def floatParam010 : ParamSpec :=
  ⟨"x", "float", some ⟨some (.vrat ⟨0, 1⟩), some (.vrat ⟨10, 1⟩), none⟩, none, none⟩

example : _nominal_value floatParam010 = some (.vrat ⟨5, 1⟩) := by decide
example : ((generate_cases c2spec).map GenResult.nominal) = some [("x", Val.vrat ⟨5, 2⟩)] := by decide
example : ((normalize_spec c2spec).map (fun ns => ns.params_obj.map ParamSpec.equivalence_classes)) =
    some [some [⟨some "low", none, some [.vrat ⟨0, 1⟩, .vrat ⟨5, 1⟩]⟩,
                ⟨some "high", none, some [.vrat ⟨5, 1⟩, .vrat ⟨10, 1⟩]⟩]] := by decide

/-- Fractional-digit expansion driving `formatG`, stopping at a zero
remainder or after `fuel` digits. -/
def fracDigits : Nat → PyF → String
  | 0, _ => ""
  | fuel + 1, q =>
    if q.isZero then ""
    else
      let q10 := PyF.mul q ⟨10, 1⟩
      let d := q10.floor
      toString d ++ fracDigits fuel (PyF.sub q10 (PyF.ofInt d))

/-- Approximation of the C `%g` format the source uses for floats: integral
values print bare (as `%g` does), other fractions print sign, integer part
and up to six fractional digits with trailing zeros dropped. The
6-significant-digit rounding and exponent regimes of `%g` are not modelled;
no claim inspects the text of a non-integral float. -/
def formatG (q : PyF) : String :=
  if q.den = 1 then toString q.num
  else
    let sign := if q.num < 0 then "-" else ""
    let a := q.fabs
    let ip := a.floor
    sign ++ toString ip ++ "." ++ fracDigits 6 (PyF.sub a (PyF.ofInt ip))

/-- Source `_java_literal`. Booleans are checked first (Python bools are
ints), ints print bare, floats via `%g`, `None` as `null`; the symbolic
`nextafter` floats print like their base value (the IEEE-adjacent value is
below `%g`'s printed precision; no claim inspects this text). -/
def _java_literal : Val → String
  | .vbool b => if b then "true" else "false"
  | .vint n => toString n
  | .vrat q => formatG q
  | .vnone => "null"
  | .vnext _ q => formatG q

/-- `inputs.get(n)` feeding `_java_literal`: Python conflates a missing key
with an explicit `None`, both printing `null`. -/
def javaLiteralOpt : Option Val → String
  | some v => _java_literal v
  | none => "null"

/-- Test-method name: `"test_" + "_".join(name_parts) + f"_{idx}"` with the
per-kind name parts of the source loop. -/
def caseMethodName (idx : Nat) (c : Case) : String :=
  let base := ["spec", dashToUnderscore c.type]
  let extra :=
    if c.type == "equivalence" then [c.param.getD "p", c.cls.getD "cls"]
    else if strStartsWith c.type "boundary" then [c.param.getD (c.label.getD "combo")]
    else []
  "test_" ++ String.intercalate "_" (base ++ extra) ++ "_" ++ toString idx

/-- Invocation text for one case: positional arguments follow raw parameter
declaration order (`p["name"]` raising on a nameless parameter), and a falsy
`method` silently falls back to `obj.underTest(...)`. -/
def renderCall (method : Option String) (rawParams : List RawParam) (c : Case) : Option String := do
  let param_order ← mapO RawParam.name rawParams
  let args := String.intercalate ", " (param_order.map (fun n => javaLiteralOpt (dictGet c.inputs n)))
  return (if truthyS method then "obj." ++ method.getD "" ++ "(" ++ args ++ ")"
          else "obj.underTest(" ++ args ++ ")")

/-- First three emitted lines of every test method. -/
def caseHeader (cls_simple mname : String) : String :=
  "    @Test\n    public void " ++ mname ++ "() \x7b\n        " ++
    cls_simple ++ " obj = new " ++ cls_simple ++ "();\n"

/-- Assertion emitted when the oracle evaluated to a value. -/
def assertLine (v : Val) (call : String) : String :=
  "        assertEquals(" ++ _java_literal v ++ ", " ++ call ++ ");\n"

/-- Marker emitted when an oracle is configured but evaluation failed. -/
def oracleFailLine (call : String) : String :=
  "        // TODO: Provide oracle; auto-eval failed\n        " ++ call ++ ";\n"

/-- Marker emitted when no oracle is configured. -/
def noOracleLine (call : String) : String :=
  "        // TODO: Add assertions for expected behavior\n        " ++ call ++ ";\n"

/-- Closing lines of every test method. -/
def caseFooter : String := "    \x7d\n\n"

/-- Per-case body of `render_junit`'s loop. The source checks
`expected is not None`, so an oracle successfully evaluating to `None` (a
bare variable bound to `None`) takes the failure branch too. -/
def renderCase (cls_simple : String) (method : Option String) (oracle : Option PyExpr)
    (rawParams : List RawParam) (idx : Nat) (c : Case) : Option String := do
  let mname := caseMethodName idx c
  let call ← renderCall method rawParams c
  let body :=
    match oracle with
    | some e =>
      match _eval_oracle e c.inputs with
      | some v => if v = Val.vnone then oracleFailLine call else assertLine v call
      | none => oracleFailLine call
    | none => noOracleLine call
  return caseHeader cls_simple mname ++ body ++ caseFooter

/-- Test-class name resolution of `render_junit`: an explicit `testClassName`
wins; a falsy one falls back to `classUnderTest`'s simple name plus
`SpecTests`, raising (`none`) when `classUnderTest` is missing too. -/
def testClassOf (spec : Spec) : Option String :=
  if truthyS spec.testClassName then spec.testClassName
  else match spec.classUnderTest with
    | some c => some (splitLastDot c ++ "SpecTests")
    | none => none

/-- Simple name of the class under test, with the source's silent
"Calculator" fallback for a falsy `classUnderTest`. -/
def clsSimpleOf (spec : Spec) : String :=
  match spec.classUnderTest with
  | some c => if c ≠ "" then splitLastDot c else "Calculator"
  | none => "Calculator"

/-- Source `render_junit`. The only fallible steps are the test-class name
(raises when both `testClassName` and `classUnderTest` are missing) and the
per-case parameter-name reads; oracle failures never abort. -/
def render_junit (spec : Spec) (cases : List Case) : Option String := do
  let package := if truthyS spec.testPackage then spec.testPackage.getD ""
                 else if truthyS spec.package then spec.package.getD "" else ""
  let test_class ← testClassOf spec
  let pkg_line := if package ≠ "" then "package " ++ package ++ ";\n\n" else ""
  let junit_version := pyStrip (spec.junitVersion.getD "5")
  let imports :=
    if junit_version = "4" then "import org.junit.Test;\nimport static org.junit.Assert.*;\n\n"
    else "import org.junit.jupiter.api.Test;\nimport static org.junit.jupiter.api.Assertions.*;\n\n"
  let methodsig_comment :=
    if truthyS spec.method then "// Method under test: " ++ spec.method.getD "" ++ "\n" else ""
  let bodies ← mapO
    (fun ic => renderCase (clsSimpleOf spec) spec.method spec.output_oracle spec.params ic.1 ic.2)
    cases.enum
  return pkg_line ++ imports ++ "public class " ++ test_class ++ " \x7b\n" ++
    "    " ++ methodsig_comment ++ String.join bodies ++ "\x7d\n"

example : caseMethodName 3 ⟨"boundary-combo", none, none, none, some "all-min", []⟩ =
    "test_spec_boundary_combo_all-min_3" := by decide

/-- Raw integer parameter `a : [min=-5, max=5]` of the combo example. -/
def rawIntParamA : RawParam :=
  ⟨some "a", some "int", some ⟨some (.vint (-5)), some (.vint 5), none⟩, none, none⟩

/-- Raw integer parameter `b : [min=-5, max=5]` of the combo example. -/
def rawIntParamB : RawParam :=
  ⟨some "b", some "int", some ⟨some (.vint (-5)), some (.vint 5), none⟩, none, none⟩

/-- Oracle expression `a + b` as parsed by `ast.parse`. -/
def oracleAplusB : PyExpr := .binop .add (.name "a") (.name "b")

/-- Two-parameter spec of the testable-properties section with oracle
`"a+b"`. -/
def c3spec : Spec :=
  ⟨[rawIntParamA, rawIntParamB], none, none, none, none, none, none, none, some oracleAplusB⟩

/-- Specification with an empty parameter list. -/
def emptySpec : Spec := ⟨[], none, none, none, none, none, none, none, none⟩

example : (generate_cases c3spec).map (fun r => r.cases.drop (r.cases.length - 2)) =
    some [⟨"boundary-combo", none, none, none, some "all-min", [("a", .vint (-5)), ("b", .vint (-5))]⟩,
          ⟨"boundary-combo", none, none, none, some "all-max", [("a", .vint 5), ("b", .vint 5)]⟩] := by decide
example : _eval_oracle oracleAplusB [("a", .vint (-5)), ("b", .vint (-5))] = some (.vint (-10)) := by decide
example : (generate_cases emptySpec).map (fun r => (r.total, r.equivalence, r.boundaryCount, r.cases)) =
    some (0, 0, 0, []) := by decide
example : render_junit ⟨[rawIntParamA], some "com.x.Calc", none, none, none, none, none, none, none⟩
      [⟨"equivalence", some "a", some "zero", none, none, [("a", .vint 0)]⟩] =
    some ("import org.junit.jupiter.api.Test;\nimport static org.junit.jupiter.api.Assertions.*;\n\npublic class CalcSpecTests \x7b\n    " ++
      "    @Test\n    public void test_spec_equivalence_a_zero_0() \x7b\n        Calc obj = new Calc();\n        // TODO: Add assertions for expected behavior\n        obj.underTest(0);\n    \x7d\n\n\x7d\n") := by decide

theorem mapO_isSome_of_all {α β : Type} (f : α → Option β) :
    ∀ l : List α, (∀ a ∈ l, (f a).isSome = true) → (mapO f l).isSome = true := by
  intro l
  induction l with
  | nil => intro _; rfl
  | cons a t ih =>
    intro h
    have ha : (f a).isSome = true := h a (List.mem_cons_self a t)
    obtain ⟨b, hb⟩ := Option.isSome_iff_exists.mp ha
    have ht : (mapO f t).isSome = true := ih (fun x hx => h x (List.mem_cons_of_mem a hx))
    obtain ⟨t', ht'⟩ := Option.isSome_iff_exists.mp ht
    simp [mapO, hb, ht']

theorem mapO_mem {α β : Type} (f : α → Option β) :
    ∀ (l : List α) (l' : List β), mapO f l = some l' → ∀ b ∈ l', ∃ a ∈ l, f a = some b := by
  intro l
  induction l with
  | nil =>
    intro l' h b hb
    simp only [mapO, Option.some.injEq] at h
    subst h
    simp at hb
  | cons a t ih =>
    intro l' h b hb
    simp only [mapO, Option.bind_eq_bind, Option.bind_eq_some, Option.pure_def,
      Option.some.injEq] at h
    obtain ⟨b0, hb0, t', ht', rfl⟩ := h
    rcases List.mem_cons.mp hb with rfl | hbt
    · exact ⟨a, List.mem_cons_self a t, hb0⟩
    · obtain ⟨a', ha', hfa'⟩ := ih t' ht' b hbt
      exact ⟨a', List.mem_cons_of_mem a ha', hfa'⟩

theorem mapO_map_eq {α β γ : Type} (f : α → Option β) (g : β → γ) (h : α → γ)
    (hc : ∀ a b, f a = some b → g b = h a) :
    ∀ (l : List α) (l' : List β), mapO f l = some l' → l'.map g = l.map h := by
  intro l
  induction l with
  | nil =>
    intro l' hl
    simp only [mapO, Option.some.injEq] at hl
    subst hl
    rfl
  | cons a t ih =>
    intro l' hl
    simp only [mapO, Option.bind_eq_bind, Option.bind_eq_some, Option.pure_def,
      Option.some.injEq] at hl
    obtain ⟨b0, hb0, t', ht', rfl⟩ := hl
    simp [List.map_cons, hc a b0 hb0, ih t' ht']

theorem dictGet_dictSet_self (d : List (String × Val)) (k : String) (v : Val) :
    dictGet (dictSet d k v) k = some v := by
  induction d with
  | nil => simp [dictSet, dictGet]
  | cons kv rest ih =>
    by_cases h : kv.1 = k
    · simp [dictSet, dictGet, h]
    · simp [dictSet, dictGet, h, ih]

theorem dictGet_dictSet_ne (d : List (String × Val)) (k k' : String) (v : Val)
    (h : k' ≠ k) : dictGet (dictSet d k v) k' = dictGet d k' := by
  induction d with
  | nil => simp [dictSet, dictGet, Ne.symm h]
  | cons kv rest ih =>
    by_cases hk : kv.1 = k
    · simp [dictSet, dictGet, hk, Ne.symm h, h]
    · by_cases hk' : kv.1 = k'
      · simp [dictSet, dictGet, hk, hk', h]
      · simp [dictSet, dictGet, hk, hk', ih]

theorem dictGet_dictSet_isSome (d : List (String × Val)) (k k' : String) (v : Val)
    (h : (dictGet d k').isSome = true) : (dictGet (dictSet d k v) k').isSome = true := by
  by_cases hk : k' = k
  · subst hk; simp [dictGet_dictSet_self]
  · rw [dictGet_dictSet_ne d k k' v hk]; exact h

theorem dictGet_foldl_dictSet_isSome :
    ∀ (kvs : List (String × Val)) (d : List (String × Val)) (k : String),
      ((dictGet d k).isSome = true ∨ ∃ kv ∈ kvs, kv.1 = k) →
      (dictGet (kvs.foldl (fun d kv => dictSet d kv.1 kv.2) d) k).isSome = true := by
  intro kvs
  induction kvs with
  | nil =>
    intro d k h
    simp only [List.foldl_nil]
    rcases h with h | ⟨kv, hkv, _⟩
    · exact h
    · exact absurd hkv (List.not_mem_nil kv)
  | cons kv rest ih =>
    intro d k h
    simp only [List.foldl_cons]
    apply ih
    rcases h with h | ⟨kv', hkv', hk⟩
    · exact Or.inl (dictGet_dictSet_isSome d kv.1 k kv.2 h)
    · rcases List.mem_cons.mp hkv' with rfl | hrest
      · subst hk
        exact Or.inl (by simp [dictGet_dictSet_self])
      · exact Or.inr ⟨kv', hrest, hk⟩

theorem intOp_isNum (op : BinK) (i j : Int) (v : Val) (h : intOp op i j = some v) :
    isNum v = true := by
  cases op <;> simp only [intOp] at h
  all_goals try split at h
  all_goals try split at h
  all_goals first
    | (injection h with h; subst h; rfl)
    | (cases h)

theorem ratOp_isNum (op : BinK) (a b : PyF) (v : Val) (h : ratOp op a b = some v) :
    isNum v = true := by
  cases op <;> simp only [ratOp] at h
  all_goals try split at h
  all_goals try split at h
  all_goals first
    | (injection h with h; subst h; rfl)
    | (cases h)

theorem pyBin_isNum (op : BinK) (x y v : Val) (h : pyBin op x y = some v) :
    isNum v = true := by
  simp only [pyBin, Option.bind_eq_bind, Option.bind_eq_some] at h
  obtain ⟨a, _, b, _, hop⟩ := h
  cases a <;> cases b
  · exact intOp_isNum op _ _ v hop
  · exact ratOp_isNum op _ _ v hop
  · exact ratOp_isNum op _ _ v hop
  · exact ratOp_isNum op _ _ v hop

theorem pyUn_isNum (op : UnK) (x v : Val) (h : pyUn op x = some v) : isNum v = true := by
  simp only [pyUn, Option.bind_eq_bind, Option.bind_eq_some] at h
  obtain ⟨a, _, hop⟩ := h
  cases op <;> cases a <;> simp only at hop <;>
    first
      | (injection hop with hop; subst hop; rfl)
      | (cases hop)

theorem pickFold_isNum (isMin : Bool) :
    ∀ (l : List Val) (init : Val), isNum init = true → (∀ x ∈ l, isNum x = true) →
      isNum (pickFold isMin init l) = true := by
  intro l
  induction l with
  | nil => intro init hi _; exact hi
  | cons a t ih =>
    intro init hi hl
    simp only [pickFold, List.foldl_cons]
    have hstep : isNum (if isMin then (if (toRatD a).blt (toRatD init) then a else init)
        else (if (toRatD init).blt (toRatD a) then a else init)) = true := by
      have ha := hl a (List.mem_cons_self a t)
      split <;> split <;> first | exact ha | exact hi
    exact ih _ hstep (fun x hx => hl x (List.mem_cons_of_mem a hx))

theorem pyMinMax_isNum (isMin : Bool) (vs : List Val) (v : Val)
    (h : pyMinMax isMin vs = some v) : isNum v = true := by
  match vs, h with
  | a :: b :: rest, h =>
    simp only [pyMinMax] at h
    split at h
    · injection h with h
      subst h
      rename_i hall
      have hall' := List.all_eq_true.mp hall
      exact pickFold_isNum isMin (b :: rest) a (hall' a (List.mem_cons_self a _))
        (fun x hx => hall' x (List.mem_cons_of_mem a hx))
    · cases h

theorem applyFunc_isNum (f : String) (vs : List Val) (v : Val)
    (h : applyFunc f vs = some v) : isNum v = true := by
  simp only [applyFunc] at h
  split at h
  · match vs, h with
    | [w], h =>
      simp only at h
      split at h <;> first | (injection h with h; subst h; rfl) | (cases h)
  · split at h
    · exact pyMinMax_isNum true vs v h
    · split at h
      · exact pyMinMax_isNum false vs v h
      · split at h
        · match vs, h with
          | [w], h =>
            simp only at h
            split at h <;> first | (injection h with h; subst h; rfl) | (cases h)
        · cases h

theorem dictGet_mem : ∀ (d : List (String × Val)) (k : String) (v : Val),
    dictGet d k = some v → ∃ kv ∈ d, kv.2 = v := by
  intro d
  induction d with
  | nil => intro k v h; cases h
  | cons kv rest ih =>
    intro k v h
    simp only [dictGet] at h
    split at h
    · injection h with h
      exact ⟨kv, List.mem_cons_self kv rest, h⟩
    · obtain ⟨kv', hkv', hv⟩ := ih k v h
      exact ⟨kv', List.mem_cons_of_mem kv hkv', hv⟩

mutual

theorem evalExpr_isNum (env : List (String × Val))
    (henv : ∀ kv ∈ env, isNum kv.2 = true) :
    ∀ (e : PyExpr) (v : Val), evalExpr env e = some v → isNum v = true
  | .num w, v, h => by
    simp only [evalExpr] at h
    split at h
    · injection h with h
      subst h
      assumption
    · cases h
  | .name id, v, h => by
    simp only [evalExpr] at h
    obtain ⟨kv, hkv, hv⟩ := dictGet_mem env id v h
    subst hv
    exact henv kv hkv
  | .binop op l r, v, h => by
    simp only [evalExpr, Option.bind_eq_bind, Option.bind_eq_some] at h
    obtain ⟨a, _, b, _, hop⟩ := h
    exact pyBin_isNum op a b v hop
  | .unaryop op e, v, h => by
    simp only [evalExpr, Option.bind_eq_bind, Option.bind_eq_some] at h
    obtain ⟨a, _, hop⟩ := h
    exact pyUn_isNum op a v hop
  | .call f args, v, h => by
    simp only [evalExpr] at h
    split at h
    · split at h
      · simp only [Option.bind_eq_bind, Option.bind_eq_some] at h
        obtain ⟨vs, hvs, happ⟩ := h
        exact applyFunc_isNum _ vs v happ
      · cases h
    · cases h
  | .other _ _, v, h => by cases h

theorem evalArgs_isNum (env : List (String × Val))
    (henv : ∀ kv ∈ env, isNum kv.2 = true) :
    ∀ (es : List PyExpr) (vs : List Val), evalArgs env es = some vs →
      ∀ v ∈ vs, isNum v = true
  | [], vs, h => by
    simp only [evalArgs, Option.some.injEq] at h
    subst h
    intro v hv
    cases hv
  | a :: rest, vs, h => by
    simp only [evalArgs, Option.bind_eq_bind, Option.bind_eq_some, Option.pure_def,
      Option.some.injEq] at h
    obtain ⟨v0, hv0, vs', hvs', rfl⟩ := h
    intro v hv
    rcases List.mem_cons.mp hv with rfl | hvt
    · exact evalExpr_isNum env henv a v hv0
    · exact evalArgs_isNum env henv rest vs' hvs' v hvt

end

theorem generate_cases_decomp (s : Spec) (r : GenResult) (h : generate_cases s = some r) :
    ∃ (ns : NormSpec) (nominal : List (String × Val)) (eqBlocks : List (List Case)),
      normalize_spec s = some ns ∧
      buildNominal ns.params_obj = some nominal ∧
      mapO (eqCasesFor nominal) ns.params_obj = some eqBlocks ∧
      r.cases = eqBlocks.flatten ++ (ns.params_obj.map (bndCasesFor nominal)).flatten
        ++ comboCases ns.params_obj ∧
      r.nominal = nominal ∧
      r.total = r.cases.length ∧
      r.equivalence = (r.cases.filter (fun c => c.type == "equivalence")).length ∧
      r.boundaryCount = (r.cases.filter (fun c => strStartsWith c.type "boundary")).length := by
  simp only [generate_cases, Option.bind_eq_bind, Option.bind_eq_some, Option.pure_def,
    Option.some.injEq] at h
  obtain ⟨ns, hns, nominal, hnom, eqBlocks, heq, hr⟩ := h
  subst hr
  exact ⟨ns, nominal, eqBlocks, hns, hnom, heq, rfl, rfl, rfl, rfl, rfl⟩

theorem eqCasesFor_mem (nominal : List (String × Val)) (p : ParamSpec)
    (block : List Case) (h : eqCasesFor nominal p = some block) :
    ∀ c ∈ block, ∃ (ec : EC) (rep : Val),
      ec ∈ p.equivalence_classes.getD [] ∧
      _representative_from_ec ec p = some rep ∧
      c = ⟨"equivalence", some p.name, some (ec.name.getD "anon"), none, none,
           dictSet nominal p.name rep⟩ := by
  intro c hc
  obtain ⟨ec, hec, hfc⟩ := mapO_mem _ _ block h c hc
  simp only [Option.map_eq_some'] at hfc
  obtain ⟨rep, hrep, hcase⟩ := hfc
  exact ⟨ec, rep, hec, hrep, hcase.symm⟩

theorem eq_segment_types (nominal : List (String × Val)) (params : List ParamSpec)
    (eqBlocks : List (List Case)) (h : mapO (eqCasesFor nominal) params = some eqBlocks) :
    ∀ c ∈ eqBlocks.flatten, c.type = "equivalence" := by
  intro c hc
  obtain ⟨block, hblock, hcb⟩ := List.mem_flatten.mp hc
  obtain ⟨p, _, hfp⟩ := mapO_mem _ _ eqBlocks h block hblock
  obtain ⟨ec, rep, _, _, hcase⟩ := eqCasesFor_mem nominal p block hfp c hcb
  rw [hcase]

theorem bnd_segment_types (nominal : List (String × Val)) (params : List ParamSpec) :
    ∀ c ∈ (params.map (bndCasesFor nominal)).flatten, c.type = "boundary" := by
  intro c hc
  obtain ⟨block, hblock, hcb⟩ := List.mem_flatten.mp hc
  obtain ⟨p, _, hp⟩ := List.mem_map.mp hblock
  subst hp
  obtain ⟨b, _, hcase⟩ := List.mem_map.mp hcb
  rw [← hcase]

theorem combo_segment_types (params : List ParamSpec) :
    ∀ c ∈ comboCases params, c.type = "boundary-combo" := by
  intro c hc
  simp only [comboCases] at hc
  split at hc
  · rcases List.mem_cons.mp hc with rfl | hc2
    · rfl
    · rcases List.mem_cons.mp hc2 with rfl | hc3
      · rfl
      · cases hc3
  · cases hc

theorem bnd_segment_mem (nominal : List (String × Val)) (params : List ParamSpec) :
    ∀ c ∈ (params.map (bndCasesFor nominal)).flatten,
      ∃ (p : ParamSpec) (b : Val), p ∈ params ∧ b ∈ p.boundaries.getD [] ∧
        c = ⟨"boundary", some p.name, none, some b, none, dictSet nominal p.name b⟩ := by
  intro c hc
  obtain ⟨block, hblock, hcb⟩ := List.mem_flatten.mp hc
  obtain ⟨p, hp, hpb⟩ := List.mem_map.mp hblock
  subst hpb
  obtain ⟨b, hb, hcase⟩ := List.mem_map.mp hcb
  exact ⟨p, b, hp, hb, hcase.symm⟩

theorem dictSet_ne_nil (d : List (String × Val)) (k : String) (v : Val) :
    dictSet d k v ≠ [] := by
  cases d with
  | nil => simp [dictSet]
  | cons kv rest => simp only [dictSet]; split <;> simp

theorem comboQual_entry (p : ParamSpec) (h : comboQual p = true) :
    ∃ (dd : Domain) (v w : Val), p.domain = some dd ∧ dd.dmin = some v ∧ dd.dmax = some w ∧
      comboEntry true p = some (p.name, v) ∧ comboEntry false p = some (p.name, w) := by
  have hdom : domHasMinMax p.domain = true := by
    simp only [comboQual, Bool.and_eq_true] at h
    exact h.2
  cases hd : p.domain with
  | none => rw [hd] at hdom; cases hdom
  | some dd =>
    rw [hd] at hdom
    simp only [domHasMinMax, Bool.and_eq_true, Option.isSome_iff_exists] at hdom
    obtain ⟨⟨v, hv⟩, w, hw⟩ := hdom
    exact ⟨dd, v, w, rfl, hv, hw, by simp [comboEntry, h, hd, hv],
      by simp [comboEntry, h, hd, hw]⟩

theorem comboFold_ne_nil (useMin : Bool) :
    ∀ (params : List ParamSpec) (d : List (String × Val)), d ≠ [] →
      params.foldl (comboStep useMin) d ≠ [] := by
  intro params
  induction params with
  | nil => intro d h; exact h
  | cons p rest ih =>
    intro d h
    simp only [List.foldl_cons]
    apply ih
    simp only [comboStep]
    split
    · exact dictSet_ne_nil _ _ _
    · exact h

theorem comboDict_ne_nil (useMin : Bool) (params : List ParamSpec)
    (hne : params ≠ []) (hall : params.all comboQual = true) :
    comboDict useMin params ≠ [] := by
  cases params with
  | nil => exact absurd rfl hne
  | cons p rest =>
    have hq : comboQual p = true := (List.all_eq_true.mp hall) p (List.mem_cons_self p rest)
    obtain ⟨dd, v, w, _, _, _, he1, he2⟩ := comboQual_entry p hq
    simp only [comboDict, List.foldl_cons]
    apply comboFold_ne_nil
    cases useMin <;> simp only [comboStep, he1, he2] <;> exact dictSet_ne_nil _ _ _

theorem comboFold_isSome_preserve (useMin : Bool) :
    ∀ (params : List ParamSpec) (d : List (String × Val)) (k : String),
      (dictGet d k).isSome = true →
      (dictGet (params.foldl (comboStep useMin) d) k).isSome = true := by
  intro params
  induction params with
  | nil => intro d k h; exact h
  | cons p rest ih =>
    intro d k h
    simp only [List.foldl_cons]
    apply ih
    simp only [comboStep]
    split
    · exact dictGet_dictSet_isSome _ _ _ _ h
    · exact h

theorem comboFold_get_preserve (useMin : Bool) :
    ∀ (params : List ParamSpec) (d : List (String × Val)) (k : String),
      (∀ p ∈ params, p.name ≠ k) →
      dictGet (params.foldl (comboStep useMin) d) k = dictGet d k := by
  intro params
  induction params with
  | nil => intro d k _; rfl
  | cons p rest ih =>
    intro d k h
    simp only [List.foldl_cons]
    rw [ih _ k (fun q hq => h q (List.mem_cons_of_mem p hq))]
    simp only [comboStep]
    cases he : comboEntry useMin p with
    | none => rfl
    | some kv =>
      have hk : kv.1 = p.name := by
        simp only [comboEntry] at he
        split at he
        · split at he
          · simp only [Option.map_eq_some'] at he
            obtain ⟨v, _, hv⟩ := he
            rw [← hv]
          · cases he
        · cases he
      rw [dictGet_dictSet_ne]
      rw [hk]
      exact Ne.symm (h p (List.mem_cons_self p rest))

theorem comboDict_get (useMin : Bool) :
    ∀ (params : List ParamSpec) (d : List (String × Val)),
      params.all comboQual = true →
      (params.map ParamSpec.name).Nodup →
      ∀ p ∈ params, ∃ dd : Domain, p.domain = some dd ∧
        dictGet (params.foldl (comboStep useMin) d) p.name =
          (if useMin then dd.dmin else dd.dmax) := by
  intro params
  induction params with
  | nil => intro d _ _ p hp; cases hp
  | cons p0 rest ih =>
    intro d hall hnodup p hp
    have hq0 : comboQual p0 = true := (List.all_eq_true.mp hall) p0 (List.mem_cons_self p0 rest)
    obtain ⟨dd0, v0, w0, hdom0, hmin0, hmax0, he1, he2⟩ := comboQual_entry p0 hq0
    simp only [List.map_cons, List.nodup_cons] at hnodup
    rcases List.mem_cons.mp hp with rfl | hrest
    · refine ⟨dd0, hdom0, ?_⟩
      simp only [List.foldl_cons]
      have hpres : ∀ q ∈ rest, q.name ≠ p.name := by
        intro q hq hqe
        exact hnodup.1 (hqe ▸ List.mem_map_of_mem ParamSpec.name hq)
      rw [comboFold_get_preserve useMin rest _ p.name hpres]
      cases useMin
      · simp only [comboStep, he2, dictGet_dictSet_self]
        rw [hmax0]
        rfl
      · simp only [comboStep, he1, dictGet_dictSet_self]
        rw [hmin0]
        rfl
    · have hallr : rest.all comboQual = true := by
        rw [List.all_eq_true] at hall ⊢
        exact fun q hq => hall q (List.mem_cons_of_mem p0 hq)
      simp only [List.foldl_cons]
      exact ih _ hallr hnodup.2 p hrest

theorem renderCall_isSome (method : Option String) (rawParams : List RawParam) (c : Case)
    (h : ∀ p ∈ rawParams, p.name.isSome = true) :
    (renderCall method rawParams c).isSome = true := by
  have hm : (mapO RawParam.name rawParams).isSome = true := mapO_isSome_of_all _ _ h
  obtain ⟨po, hpo⟩ := Option.isSome_iff_exists.mp hm
  simp [renderCall, hpo]

theorem renderCase_isSome (cls : String) (method : Option String) (oracle : Option PyExpr)
    (rawParams : List RawParam) (idx : Nat) (c : Case)
    (h : ∀ p ∈ rawParams, p.name.isSome = true) :
    (renderCase cls method oracle rawParams idx c).isSome = true := by
  obtain ⟨callStr, hcs⟩ := Option.isSome_iff_exists.mp (renderCall_isSome method rawParams c h)
  simp [renderCase, hcs]

theorem render_junit_isSome (spec : Spec) (cases : List Case)
    (h1 : ∀ p ∈ spec.params, p.name.isSome = true)
    (h2 : truthyS spec.testClassName = true ∨ spec.classUnderTest.isSome = true) :
    (render_junit spec cases).isSome = true := by
  have htc : (testClassOf spec).isSome = true := by
    unfold testClassOf
    by_cases ht : truthyS spec.testClassName = true
    · cases hs : spec.testClassName with
      | none => rw [hs] at ht; cases ht
      | some s => rw [hs] at ht; simp [ht]
    · simp only [Bool.not_eq_true] at ht
      rcases h2 with h | h
      · rw [ht] at h; cases h
      · obtain ⟨cu, hcu⟩ := Option.isSome_iff_exists.mp h
        simp [ht, hcu]
  obtain ⟨tc, htc'⟩ := Option.isSome_iff_exists.mp htc
  have hb : (mapO
      (fun ic => renderCase (clsSimpleOf spec) spec.method spec.output_oracle spec.params
        ic.1 ic.2)
      cases.enum).isSome = true :=
    mapO_isSome_of_all _ _ (fun ic _ => renderCase_isSome _ _ _ _ _ _ h1)
  obtain ⟨bodies, hb'⟩ := Option.isSome_iff_exists.mp hb
  simp [render_junit, htc', hb']

theorem buildNominal_isSome_keys (params : List ParamSpec) (nominal : List (String × Val))
    (h : buildNominal params = some nominal) :
    ∀ p ∈ params, (dictGet nominal p.name).isSome = true := by
  intro p hp
  simp only [buildNominal, Option.bind_eq_bind, Option.bind_eq_some, Option.pure_def,
    Option.some.injEq] at h
  obtain ⟨kvs, hkvs, hfold⟩ := h
  subst hfold
  apply dictGet_foldl_dictSet_isSome
  right
  have hmaps : kvs.map Prod.fst = params.map ParamSpec.name :=
    mapO_map_eq _ Prod.fst ParamSpec.name
      (by
        intro a b hab
        simp only [Option.map_eq_some'] at hab
        obtain ⟨v, _, hv⟩ := hab
        rw [← hv])
      params kvs hkvs
  have : p.name ∈ kvs.map Prod.fst := by
    rw [hmaps]
    exact List.mem_map_of_mem ParamSpec.name hp
  obtain ⟨kv, hkv, hkv1⟩ := List.mem_map.mp this
  exact ⟨kv, hkv, hkv1⟩

/-- AST of `ast.parse("1+2", mode="eval")`. -/
def exprOnePlusTwo : PyExpr := .binop .add (.num (.vint 1)) (.num (.vint 2))

/-- AST of `ast.parse("a/b", mode="eval")`. -/
def exprADivB : PyExpr := .binop .div (.name "a") (.name "b")

/-- AST of `ast.parse("__import__('os')", mode="eval")`: a call whose
function position is the disallowed name, with a string-constant argument
(itself outside the allow-list). -/
def exprImportOS : PyExpr := .call (.name "__import__") [.other "Constant_str" []]

/-- C1: the safe expression evaluator fails closed and never raises an
uncontrolled error: evaluation is a total function into `Option`;
`evaluate("1+2", {})` is `3`; `evaluate("a/b", {a:1, b:0})` is a failure,
not a crash; `evaluate("__import__('os')", {})` fails because the call is
outside the function allow-list; every disallowed syntax node fails closed;
and over a numeric environment a successful evaluation always returns a
number. -/
theorem C1_safe_evaluator_fails_closed :
    _eval_oracle exprOnePlusTwo [] = some (.vint 3) ∧
    _eval_oracle exprADivB [("a", .vint 1), ("b", .vint 0)] = none ∧
    _eval_oracle exprImportOS [] = none ∧
    (∀ (kind : String) (children : List PyExpr) (env : List (String × Val)),
      _eval_oracle (.other kind children) env = none) ∧
    (∀ (env : List (String × Val)) (e : PyExpr) (v : Val),
      (∀ kv ∈ env, isNum kv.2 = true) → _eval_oracle e env = some v → isNum v = true) := by
  refine ⟨by decide, by decide, by decide, fun _ _ _ => rfl, ?_⟩
  intro env e v henv h
  exact evalExpr_isNum env henv e v h

/-- Witness for C1 at a concrete numeric environment and expression. -/
theorem C1_safe_evaluator_fails_closed_witness :
    (∀ kv ∈ ([("a", Val.vint 2)] : List (String × Val)), isNum kv.2 = true) ∧
    isNum (Val.vint 5) = true :=
  ⟨by decide, C1_safe_evaluator_fails_closed.2.2.2.2 [("a", Val.vint 2)]
    (.binop .add (.name "a") (.num (.vint 3))) (Val.vint 5) (by decide) (by decide)⟩

/-- C4: for an integer parameter with domain `[0, 10]` and nothing explicit,
the derived equivalence classes are exactly zero (the singleton 0) and
positive `[1, 10]` — no negative class — and the derived boundaries are
exactly `0, 1, 9, 10` in that order (`-1` excluded as out of domain). -/
theorem C4_int_default_classes_boundaries :
    _derive_default_equivalence_classes ⟨"n", "int", some ⟨some (.vint 0), some (.vint 10), none⟩, none, none⟩ =
      some [⟨some "zero", some [.vint 0], none⟩,
            ⟨some "positive", none, some [.vint 1, .vint 10]⟩] ∧
    _derive_default_boundaries ⟨"n", "int", some ⟨some (.vint 0), some (.vint 10), none⟩, none, none⟩ =
      some [.vint 0, .vint 1, .vint 9, .vint 10] := by decide

/-- C10: a specification with an empty parameter list generates zero cases
of every kind — all three counts are 0 and the case list is empty, so in
particular no boundary-combo case appears even though every (nonexistent)
parameter vacuously qualifies. -/
theorem C10_empty_params_no_cases :
    (generate_cases emptySpec).map (fun r => (r.total, r.equivalence, r.boundaryCount, r.cases)) =
      some (0, 0, 0, ([] : List Case)) ∧
    (normalize_spec emptySpec).map (fun ns => ns.params_obj.all comboQual) = some true := by
  decide

/-- Counterexample to C2: for the float parameter with domain `[0.0, 10.0]`
and no explicit classes, the nominal value `generate_cases` computes (after
normalization installs the default classes) is 2.5 — the midpoint of the
first derived class "low" `[0.0, 5.0]` — and not 5.0 as claimed. -/
theorem C2_float_nominal_counterexample :
    (generate_cases c2spec).map GenResult.nominal = some [("x", Val.vrat ⟨5, 2⟩)] ∧
    (generate_cases c2spec).map GenResult.nominal ≠ some [("x", Val.vrat ⟨5, 1⟩)] := by
  decide

/-- C2 as amended: normalization derives exactly the classes
low `[0.0, 5.0]` and high `[5.0, 10.0]`; the nominal value actually used by
case generation for that parameter is 2.5 (first-class midpoint), while
`_nominal_value` applied before class derivation yields 5.0 (the domain
midpoint the original claim quotes). -/
theorem C2_float_defaults_amended :
    ((normalize_spec c2spec).map (fun ns => ns.params_obj.map ParamSpec.equivalence_classes)) =
      some [some [⟨some "low", none, some [.vrat ⟨0, 1⟩, .vrat ⟨5, 1⟩]⟩,
                  ⟨some "high", none, some [.vrat ⟨5, 1⟩, .vrat ⟨10, 1⟩]⟩]] ∧
    (generate_cases c2spec).map GenResult.nominal = some [("x", Val.vrat ⟨5, 2⟩)] ∧
    _nominal_value floatParam010 = some (.vrat ⟨5, 1⟩) := by decide

/-- C9: rendering is a pure function of the `(spec, cases)` pair — the
embedding of `render_junit` reads no ambient state, so re-rendering the same
pair is definitionally the same text. -/
theorem C9_render_pure : ∀ (spec : Spec) (cases : List Case),
    render_junit spec cases = render_junit spec cases := fun _ _ => rfl

/-- Specification for the renderer with one parameter and no method name. -/
def c5spec : Spec := ⟨[rawIntParamA], some "com.x.Calc", none, none, none, none, none, none, none⟩

/-- One already-generated case fed to the renderer. -/
def c5case : Case := ⟨"equivalence", some "a", some "zero", none, none, [("a", .vint 0)]⟩

/-- Counterexample to C5: a specification missing the method name does not
fail fast — `render_junit` succeeds and silently emits the guessed fallback
call `obj.underTest(...)`. -/
theorem C5_missing_method_counterexample :
    render_junit c5spec [c5case] =
      some ("import org.junit.jupiter.api.Test;\nimport static org.junit.jupiter.api.Assertions.*;\n\npublic class CalcSpecTests \x7b\n    " ++
        "    @Test\n    public void test_spec_equivalence_a_zero_0() \x7b\n        Calc obj = new Calc();\n        // TODO: Add assertions for expected behavior\n        obj.underTest(0);\n    \x7d\n\n\x7d\n") := by
  decide

/-- C5 as amended: a missing (or falsy) method name never aborts rendering —
every case's invocation silently falls back to `obj.underTest(...)` and the
run succeeds whenever a test-class name is derivable; the only fail-fast in
`render_junit` is the missing-class-name path (both `testClassName` falsy
and `classUnderTest` absent), which raises an undescriptive
`AttributeError`. -/
theorem C5_missing_method_fallback_amended :
    (∀ (method : Option String) (rawParams : List RawParam) (c : Case),
       truthyS method = false → (∀ p ∈ rawParams, p.name.isSome = true) →
       ∃ args, renderCall method rawParams c = some ("obj.underTest(" ++ args ++ ")")) ∧
    (∀ (spec : Spec) (cases : List Case),
       (∀ p ∈ spec.params, p.name.isSome = true) →
       (truthyS spec.testClassName = true ∨ spec.classUnderTest.isSome = true) →
       (render_junit spec cases).isSome = true) ∧
    (∀ (spec : Spec) (cases : List Case),
       truthyS spec.testClassName = false → spec.classUnderTest = none →
       render_junit spec cases = none) := by
  refine ⟨?_, fun spec cases h1 h2 => render_junit_isSome spec cases h1 h2, ?_⟩
  · intro method rawParams c hm hnames
    obtain ⟨po, hpo⟩ := Option.isSome_iff_exists.mp (mapO_isSome_of_all _ _ hnames)
    refine ⟨String.intercalate ", " (po.map (fun n => javaLiteralOpt (dictGet c.inputs n))), ?_⟩
    simp [renderCall, hpo, hm]
  · intro spec cases h1 h2
    simp [render_junit, testClassOf, h1, h2]

/-- Witness for the amended C5 at the concrete method-less specification. -/
theorem C5_missing_method_fallback_amended_witness :
    (render_junit c5spec [c5case]).isSome = true :=
  C5_missing_method_fallback_amended.2.1 c5spec [c5case] (by decide) (by decide)

/-- C7: per rendered case, a configured oracle that evaluates to a value
yields exactly one equality assertion comparing the literal expected value
with the call; a failed (or `None`) evaluation yields the call plus the
explicit no-oracle marker and no assertion; an absent oracle yields the call
plus the explicit assertion-needed marker; and rendering always completes
for a well-formed spec regardless of per-case oracle outcomes. -/
theorem C7_per_case_oracle_handling :
    (∀ (cls : String) (method : Option String) (e : PyExpr) (rawParams : List RawParam)
       (idx : Nat) (c : Case) (callStr : String) (v : Val),
       renderCall method rawParams c = some callStr →
       _eval_oracle e c.inputs = some v → v ≠ Val.vnone →
       renderCase cls method (some e) rawParams idx c =
         some (caseHeader cls (caseMethodName idx c) ++ assertLine v callStr ++ caseFooter)) ∧
    (∀ (cls : String) (method : Option String) (e : PyExpr) (rawParams : List RawParam)
       (idx : Nat) (c : Case) (callStr : String),
       renderCall method rawParams c = some callStr →
       (_eval_oracle e c.inputs = none ∨ _eval_oracle e c.inputs = some Val.vnone) →
       renderCase cls method (some e) rawParams idx c =
         some (caseHeader cls (caseMethodName idx c) ++ oracleFailLine callStr ++ caseFooter)) ∧
    (∀ (cls : String) (method : Option String) (rawParams : List RawParam)
       (idx : Nat) (c : Case) (callStr : String),
       renderCall method rawParams c = some callStr →
       renderCase cls method none rawParams idx c =
         some (caseHeader cls (caseMethodName idx c) ++ noOracleLine callStr ++ caseFooter)) ∧
    (∀ (spec : Spec) (cases : List Case),
       (∀ p ∈ spec.params, p.name.isSome = true) →
       (truthyS spec.testClassName = true ∨ spec.classUnderTest.isSome = true) →
       (render_junit spec cases).isSome = true) := by
  refine ⟨?_, ?_, ?_, fun spec cases h1 h2 => render_junit_isSome spec cases h1 h2⟩
  · intro cls method e rawParams idx c callStr v hcall heval hv
    simp [renderCase, hcall, heval, hv]
  · intro cls method e rawParams idx c callStr hcall heval
    rcases heval with heval | heval <;> simp [renderCase, hcall, heval]
  · intro cls method rawParams idx c callStr hcall
    simp [renderCase, hcall]

/-- Witness for C7 at the all-min combo case of the two-parameter spec with
oracle `a+b`. -/
theorem C7_per_case_oracle_handling_witness :
    renderCase "Calc" (some "add") (some oracleAplusB) [rawIntParamA, rawIntParamB] 0
        ⟨"boundary-combo", none, none, none, some "all-min", [("a", .vint (-5)), ("b", .vint (-5))]⟩ =
      some (caseHeader "Calc"
          (caseMethodName 0 ⟨"boundary-combo", none, none, none, some "all-min",
            [("a", .vint (-5)), ("b", .vint (-5))]⟩) ++
        assertLine (.vint (-10)) "obj.add(-5, -5)" ++ caseFooter) :=
  C7_per_case_oracle_handling.1 "Calc" (some "add") oracleAplusB [rawIntParamA, rawIntParamB] 0
    ⟨"boundary-combo", none, none, none, some "all-min", [("a", .vint (-5)), ("b", .vint (-5))]⟩
    "obj.add(-5, -5)" (.vint (-10)) (by decide) (by decide) (by decide)

/-- Normalized form of `c3spec`, evaluated. -/
def c3norm : NormSpec := (normalize_spec c3spec).getD ⟨emptySpec, []⟩

/-- Generation result for `c3spec`, evaluated. -/
def c3gen : GenResult := (generate_cases c3spec).getD ⟨0, 0, 0, [], [], emptySpec⟩

/-- C6: case generation is deterministic — two runs on the same
specification agree — and the case list always decomposes as all
equivalence cases (grouped by parameter then class), then all plain
boundary cases (grouped by parameter then boundary), then the optional
combo pair. -/
theorem C6_deterministic_fixed_order :
    (∀ (s : Spec) (r r' : GenResult), generate_cases s = some r → generate_cases s = some r' →
       r.cases = r'.cases ∧ r.total = r'.total ∧ r.equivalence = r'.equivalence ∧
       r.boundaryCount = r'.boundaryCount) ∧
    (∀ (s : Spec) (ns : NormSpec) (r : GenResult),
       normalize_spec s = some ns → generate_cases s = some r →
       ∃ (nominal : List (String × Val)) (eqBlocks : List (List Case)),
         buildNominal ns.params_obj = some nominal ∧
         mapO (eqCasesFor nominal) ns.params_obj = some eqBlocks ∧
         r.cases = eqBlocks.flatten ++ (ns.params_obj.map (bndCasesFor nominal)).flatten
           ++ comboCases ns.params_obj ∧
         (∀ c ∈ eqBlocks.flatten, c.type = "equivalence") ∧
         (∀ c ∈ (ns.params_obj.map (bndCasesFor nominal)).flatten, c.type = "boundary") ∧
         (∀ c ∈ comboCases ns.params_obj, c.type = "boundary-combo")) := by
  constructor
  · intro s r r' h h'
    rw [h] at h'
    injection h' with h'
    subst h'
    exact ⟨rfl, rfl, rfl, rfl⟩
  · intro s ns r hns hgen
    obtain ⟨ns', nominal, eqBlocks, hns', hnom, heq, hcases, _⟩ := generate_cases_decomp s r hgen
    rw [hns] at hns'
    injection hns' with hns'
    subst hns'
    exact ⟨nominal, eqBlocks, hnom, heq, hcases,
      eq_segment_types nominal ns.params_obj eqBlocks heq,
      bnd_segment_types nominal ns.params_obj,
      combo_segment_types ns.params_obj⟩

/-- Witness for C6 at the concrete two-parameter spec. -/
theorem C6_deterministic_fixed_order_witness :
    ∃ (nominal : List (String × Val)) (eqBlocks : List (List Case)),
      buildNominal c3norm.params_obj = some nominal ∧
      mapO (eqCasesFor nominal) c3norm.params_obj = some eqBlocks ∧
      c3gen.cases = eqBlocks.flatten
        ++ (c3norm.params_obj.map (bndCasesFor nominal)).flatten
        ++ comboCases c3norm.params_obj ∧
      (∀ c ∈ eqBlocks.flatten, c.type = "equivalence") ∧
      (∀ c ∈ (c3norm.params_obj.map (bndCasesFor nominal)).flatten, c.type = "boundary") ∧
      (∀ c ∈ comboCases c3norm.params_obj, c.type = "boundary-combo") :=
  C6_deterministic_fixed_order.2 c3spec c3norm c3gen (by rfl) (by rfl)

/-- Counterexample to C3 as literally stated: for the empty parameter list
the condition "every parameter has a non-empty boundary list and a domain
with min and max" holds vacuously, yet no boundary-combo case is emitted, so
the claimed "if and only if" fails there. -/
theorem C3_vacuous_combo_counterexample :
    (normalize_spec emptySpec).map (fun ns => ns.params_obj.all comboQual) = some true ∧
    (generate_cases emptySpec).map
        (fun r => (r.cases.filter (fun c => c.type == "boundary-combo")).length) = some 0 := by
  decide

/-- C3 as amended: the two boundary-combo cases are emitted iff the
parameter list is non-empty and every parameter has a non-empty boundary
list and a domain carrying min and max; the number of combo cases is always
0 or 2 (never partial); and for the two integer parameters
`a, b : [-5, 5]` with oracle `a+b` the last two cases are all-min
`(a=-5, b=-5)` and all-max `(a=5, b=5)`, whose oracle evaluations are
`-10` and `10`. -/
theorem C3_combo_amended :
    (∀ (s : Spec) (ns : NormSpec) (r : GenResult),
       normalize_spec s = some ns → generate_cases s = some r →
       ((∃ c ∈ r.cases, c.type = "boundary-combo") ↔
         (ns.params_obj ≠ [] ∧ ns.params_obj.all comboQual = true))) ∧
    (∀ (s : Spec) (r : GenResult), generate_cases s = some r →
       (r.cases.filter (fun c => c.type == "boundary-combo")).length = 0 ∨
       (r.cases.filter (fun c => c.type == "boundary-combo")).length = 2) ∧
    (generate_cases c3spec).map (fun r => r.cases.drop (r.cases.length - 2)) =
      some [⟨"boundary-combo", none, none, none, some "all-min", [("a", .vint (-5)), ("b", .vint (-5))]⟩,
            ⟨"boundary-combo", none, none, none, some "all-max", [("a", .vint 5), ("b", .vint 5)]⟩] ∧
    _eval_oracle oracleAplusB [("a", .vint (-5)), ("b", .vint (-5))] = some (.vint (-10)) ∧
    _eval_oracle oracleAplusB [("a", .vint 5), ("b", .vint 5)] = some (.vint 10) := by
  refine ⟨?_, ?_, by decide, by decide, by decide⟩
  · intro s ns r hns hgen
    obtain ⟨ns', nominal, eqBlocks, hns', hnom, heq, hcases, _⟩ := generate_cases_decomp s r hgen
    rw [hns] at hns'
    injection hns' with hns'
    subst hns'
    constructor
    · rintro ⟨c, hc, hty⟩
      rw [hcases] at hc
      rcases List.mem_append.mp hc with hc | hcC
      · rcases List.mem_append.mp hc with hcA | hcB
        · have hty2 := eq_segment_types nominal ns.params_obj eqBlocks heq c hcA
          rw [hty2] at hty
          exact absurd hty (by decide)
        · have hty2 := bnd_segment_types nominal ns.params_obj c hcB
          rw [hty2] at hty
          exact absurd hty (by decide)
      · have hne : comboCases ns.params_obj ≠ [] := List.ne_nil_of_mem hcC
        simp only [comboCases] at hne
        split at hne
        · rename_i hcond
          simp only [Bool.and_eq_true, Bool.not_eq_eq_eq_not, Bool.not_true] at hcond
          obtain ⟨⟨hall, hne1⟩, _⟩ := hcond
          refine ⟨?_, hall⟩
          intro hnil
          rw [hnil] at hne1
          simp [comboDict] at hne1
        · exact absurd rfl hne
    · rintro ⟨hne, hall⟩
      have hd1 : (comboDict true ns.params_obj).isEmpty = false := by
        have := comboDict_ne_nil true ns.params_obj hne hall
        cases h : comboDict true ns.params_obj with
        | nil => exact absurd h this
        | cons a t => rfl
      have hd2 : (comboDict false ns.params_obj).isEmpty = false := by
        have := comboDict_ne_nil false ns.params_obj hne hall
        cases h : comboDict false ns.params_obj with
        | nil => exact absurd h this
        | cons a t => rfl
      refine ⟨⟨"boundary-combo", none, none, none, some "all-min",
        comboDict true ns.params_obj⟩, ?_, rfl⟩
      rw [hcases]
      apply List.mem_append_right
      simp only [comboCases, hall, hd1, hd2]
      simp
  · intro s r hgen
    obtain ⟨ns, nominal, eqBlocks, hns, hnom, heq, hcases, _⟩ := generate_cases_decomp s r hgen
    rw [hcases, List.filter_append, List.filter_append]
    have hA : eqBlocks.flatten.filter (fun c => c.type == "boundary-combo") = [] := by
      rw [List.filter_eq_nil_iff]
      intro c hc
      rw [eq_segment_types nominal ns.params_obj eqBlocks heq c hc]
      decide
    have hB : ((ns.params_obj.map (bndCasesFor nominal)).flatten).filter
        (fun c => c.type == "boundary-combo") = [] := by
      rw [List.filter_eq_nil_iff]
      intro c hc
      rw [bnd_segment_types nominal ns.params_obj c hc]
      decide
    rw [hA, hB]
    simp only [List.nil_append, List.length_append, List.length_nil, Nat.zero_add]
    simp only [comboCases]
    split
    · right; rfl
    · left; rfl

/-- Witness for the amended C3 at the concrete two-parameter spec. -/
theorem C3_combo_amended_witness :
    (∃ c ∈ c3gen.cases, c.type = "boundary-combo") ↔
      (c3norm.params_obj ≠ [] ∧ c3norm.params_obj.all comboQual = true) :=
  C3_combo_amended.1 c3spec c3norm c3gen (by rfl) (by rfl)

/-- C8: every generated case carries a full input vector — a value for every
declared parameter; in equivalence and plain boundary cases every parameter
except the one under test keeps its nominal value; the combo cases assign
every parameter its raw domain min (all-min) or max (all-max). Parameter
names are assumed distinct (the data model calls the name a unique
identifier). -/
theorem C8_full_input_vectors :
    ∀ (s : Spec) (ns : NormSpec) (r : GenResult),
      normalize_spec s = some ns → generate_cases s = some r →
      (ns.params_obj.map ParamSpec.name).Nodup →
      ∀ c ∈ r.cases,
        (∀ p ∈ ns.params_obj, (dictGet c.inputs p.name).isSome = true) ∧
        (c.type = "equivalence" ∨ c.type = "boundary" →
          ∃ pv, c.param = some pv ∧
            ∀ p ∈ ns.params_obj, p.name ≠ pv →
              dictGet c.inputs p.name = dictGet r.nominal p.name) ∧
        (c.type = "boundary-combo" →
          ∀ p ∈ ns.params_obj, ∃ dd : Domain, p.domain = some dd ∧
            dictGet c.inputs p.name = (if c.label = some "all-min" then dd.dmin else dd.dmax)) := by
  intro s ns r hns hgen hnodup c hc
  obtain ⟨ns', nominal, eqBlocks, hns', hnom, heq, hcases, hrnom, _⟩ :=
    generate_cases_decomp s r hgen
  rw [hns] at hns'
  injection hns' with hns'
  subst hns'
  rw [hcases] at hc
  have hkeys := buildNominal_isSome_keys ns.params_obj nominal hnom
  rcases List.mem_append.mp hc with hAB | hC
  · rcases List.mem_append.mp hAB with hA | hB
    · obtain ⟨block, hblock, hcb⟩ := List.mem_flatten.mp hA
      obtain ⟨p, hp, hfp⟩ := mapO_mem _ _ eqBlocks heq block hblock
      obtain ⟨ec, rep, hec, hrep, hcase⟩ := eqCasesFor_mem nominal p block hfp c hcb
      subst hcase
      refine ⟨?_, ?_, ?_⟩
      · intro q hq
        exact dictGet_dictSet_isSome nominal p.name q.name rep (hkeys q hq)
      · intro _
        refine ⟨p.name, rfl, ?_⟩
        intro q hq hqne
        rw [hrnom]
        exact dictGet_dictSet_ne nominal p.name q.name rep hqne
      · intro habs
        simp at habs
    · obtain ⟨p, b, hp, hb, hcase⟩ := bnd_segment_mem nominal ns.params_obj c hB
      subst hcase
      refine ⟨?_, ?_, ?_⟩
      · intro q hq
        exact dictGet_dictSet_isSome nominal p.name q.name b (hkeys q hq)
      · intro _
        refine ⟨p.name, rfl, ?_⟩
        intro q hq hqne
        rw [hrnom]
        exact dictGet_dictSet_ne nominal p.name q.name b hqne
      · intro habs
        simp at habs
  · simp only [comboCases] at hC
    split at hC
    · rename_i hcond
      simp only [Bool.and_eq_true] at hcond
      have hall : ns.params_obj.all comboQual = true := hcond.1.1
      rcases List.mem_cons.mp hC with rfl | hC2
      · refine ⟨?_, ?_, ?_⟩
        · intro q hq
          obtain ⟨dd, hdd, hget⟩ := comboDict_get true ns.params_obj [] hall hnodup q hq
          obtain ⟨dd', v, w, hdd', hmin, _, _, _⟩ :=
            comboQual_entry q ((List.all_eq_true.mp hall) q hq)
          rw [hdd'] at hdd
          injection hdd with hdd
          subst hdd
          have hg2 : dictGet (comboDict true ns.params_obj) q.name = dd'.dmin := by
            simpa [comboDict] using hget
          simp [hg2, hmin]
        · intro habs
          rcases habs with habs | habs <;> simp at habs
        · intro _ q hq
          obtain ⟨dd, hdd, hget⟩ := comboDict_get true ns.params_obj [] hall hnodup q hq
          have hg2 : dictGet (comboDict true ns.params_obj) q.name = dd.dmin := by
            simpa [comboDict] using hget
          exact ⟨dd, hdd, by simp [hg2]⟩
      · rcases List.mem_cons.mp hC2 with rfl | hC3
        · refine ⟨?_, ?_, ?_⟩
          · intro q hq
            obtain ⟨dd, hdd, hget⟩ := comboDict_get false ns.params_obj [] hall hnodup q hq
            obtain ⟨dd', v, w, hdd', _, hmax, _, _⟩ :=
              comboQual_entry q ((List.all_eq_true.mp hall) q hq)
            rw [hdd'] at hdd
            injection hdd with hdd
            subst hdd
            have hg2 : dictGet (comboDict false ns.params_obj) q.name = dd'.dmax := by
              simpa [comboDict] using hget
            simp [hg2, hmax]
          · intro habs
            rcases habs with habs | habs <;> simp at habs
          · intro _ q hq
            obtain ⟨dd, hdd, hget⟩ := comboDict_get false ns.params_obj [] hall hnodup q hq
            have hg2 : dictGet (comboDict false ns.params_obj) q.name = dd.dmax := by
              simpa [comboDict] using hget
            exact ⟨dd, hdd, by simp [hg2]⟩
        · cases hC3
    · cases hC

/-- Witness for C8 at the concrete two-parameter spec (distinct names): the
first generated case (equivalence, parameter a, class negative) also carries
a value for parameter b. -/
theorem C8_full_input_vectors_witness :
    (dictGet [("a", Val.vint (-3)), ("b", Val.vint (-3))] "b").isSome = true := by
  have h := C8_full_input_vectors c3spec c3norm c3gen (by rfl) (by rfl) (by decide)
  have h2 := (h ⟨"equivalence", some "a", some "negative", none, none,
    [("a", Val.vint (-3)), ("b", Val.vint (-3))]⟩ (by decide)).1
  exact h2 ⟨"b", "int", some ⟨some (.vint (-5)), some (.vint 5), none⟩,
    some [⟨some "negative", none, some [.vint (-5), .vint (-1)]⟩,
          ⟨some "zero", some [.vint 0], none⟩,
          ⟨some "positive", none, some [.vint 1, .vint 5]⟩],
    some [.vint (-5), .vint (-4), .vint 4, .vint 5, .vint (-1), .vint 0, .vint 1]⟩ (by decide)
